import Mathlib

/-!
Verification of the template applicability matcher and child work item
synthesizer of the "Create Child Tasks" Azure DevOps extension.

The embedding follows `src/scripts/app.js` (the implementation packaged by
`vss-extension.json`).  JavaScript strings are modelled by `String`, work
items and template field maps by association lists from field reference
names to string values (JS objects have unique keys, which appears as a
`Nodup` hypothesis where it matters), and JS `undefined`/`null` by
`Option`.  `JSON.parse` is a host primitive and is modelled as an opaque
parameter where needed.  Unicode-aware JS case conversion is modelled by
ASCII case conversion, which is faithful on the field names and examples
involved.
-/

namespace CCT

/-- ASCII lower-casing of a character, as performed by
`String.prototype.toLowerCase` on ASCII input. -/
def lowerAscii (c : Char) : Char :=
  if 'A' ≤ c ∧ c ≤ 'Z' then Char.ofNat (c.toNat + 32) else c

/-- Model of `toLowerCase` on a string (ASCII fragment). -/
def lowerStr (s : String) : String :=
  ⟨s.data.map lowerAscii⟩

/-- The no-break space character ` `. -/
def nbsp : Char := Char.ofNat 160

/-- JS whitespace characters relevant to `\s` and `String.prototype.trim`. -/
def isJsWs (c : Char) : Bool :=
  c = ' ' ∨ c = '\t' ∨ c = '\n' ∨ c = '\r' ∨
  c = Char.ofNat 11 ∨ c = Char.ofNat 12 ∨ c = nbsp

/-- Characters of a string with leading and trailing JS whitespace removed
(`String.prototype.trim`). -/
def trimList (l : List Char) : List Char :=
  ((l.dropWhile isJsWs).reverse.dropWhile isJsWs).reverse

/-- Model of `String.prototype.trim`. -/
def trimStr (s : String) : String :=
  ⟨trimList s.data⟩

/-- Model of `s.trim().toLowerCase()`, the normalization applied to individual tag
and bracket tokens throughout `app.js`. -/
def trimLowerStr (s : String) : String :=
  lowerStr (trimStr s)

/-- State machine for `str.replace(/ |\s+/g, ' ')` (app.js line 588):
a lone ` ` is replaced by a space via the first alternative, while a
whitespace run started by any other whitespace character is collapsed to a
single space by the second alternative (the run may absorb ` `).
The boolean argument records whether we are inside such a run. -/
def collapseWsAux : Bool → List Char → List Char
  | _, [] => []
  | true, c :: rest =>
    if isJsWs c then collapseWsAux true rest
    else c :: collapseWsAux false rest
  | false, c :: rest =>
    if c = nbsp then ' ' :: collapseWsAux false rest
    else if isJsWs c then ' ' :: collapseWsAux true rest
    else c :: collapseWsAux false rest

/-- Model of `str.replace(/ |\s+/g, ' ')`. -/
def collapseWs (s : String) : String :=
  ⟨collapseWsAux false s.data⟩

/-- Splitting a character list at every delimiter character satisfying
`p`, keeping empty segments (the behaviour of `String.prototype.split`
with a character class; empty segments are filtered later by the
callers, so splitting at each delimiter is observationally the same as
splitting at delimiter runs such as `/;+/` or `/[;,]+/`). -/
def splitChAux (p : Char → Bool) : List Char → List Char → List (List Char)
  | acc, [] => [acc.reverse]
  | acc, c :: rest =>
    if p c then acc.reverse :: splitChAux p [] rest
    else splitChAux p (c :: acc) rest

/-- Model of `String.prototype.split` at delimiter characters satisfying `p`. -/
def splitStr (p : Char → Bool) (s : String) : List String :=
  (splitChAux p [] s.data).map (fun cs => ⟨cs⟩)

/-- All matches of a regular expression of the shape `/[^OC]+(?=C)/g`
(with `O`/`C` an opening/closing delimiter such as `{`/`}` or `[`/`]`):
the maximal runs of non-delimiter characters that are immediately
followed by the closing delimiter.  The accumulator holds the current
run reversed. -/
def delimRunsAux (opC clC : Char) : List Char → List Char → List String
  | _, [] => []
  | acc, c :: rest =>
    if c = clC then
      if acc.isEmpty then delimRunsAux opC clC [] rest
      else (⟨acc.reverse⟩ : String) :: delimRunsAux opC clC [] rest
    else if c = opC then delimRunsAux opC clC [] rest
    else delimRunsAux opC clC (c :: acc) rest

/-- Model of `str.match(/[^OC]+(?=C)/g)` (returning `[]` for `null`). -/
def delimRuns (opC clC : Char) (s : String) : List String :=
  delimRunsAux opC clC [] s.data

/-- Boolean test that `pat` occurs at the head of `l`. -/
def prefOf : List Char → List Char → Bool
  | [], _ => true
  | _ :: _, [] => false
  | a :: as, b :: bs => a = b && prefOf as bs

/-- Boolean test that `pat` occurs at the end of `l`. -/
def suffOf (pat l : List Char) : Bool :=
  prefOf pat.reverse l.reverse

/-- Boolean substring test, used for `key.indexOf('System.Tags') >= 0`. -/
def containsSub (pat : List Char) : List Char → Bool
  | [] => prefOf pat []
  | c :: rest => prefOf pat (c :: rest) || containsSub pat rest

/-- Drop everything up to and including the first occurrence of `needle`,
returning `none` when `needle` does not occur. -/
def findDrop (needle : List Char) : List Char → Option (List Char)
  | [] => if needle.isEmpty then some [] else none
  | c :: rest =>
    if prefOf needle (c :: rest) then some ((c :: rest).drop needle.length)
    else findDrop needle rest

/-- Matcher for the tail `.*seg₁.*seg₂...segₙ$` of the anchored wildcard
regular expression built in `matchField`'s title branch: middle segments
are located greedily left to right and the final segment must be a
suffix of what remains. -/
def globAfter : List (List Char) → List Char → Bool
  | [], cs => cs.isEmpty
  | [last], cs => suffOf last cs
  | seg :: rest, cs =>
    match findDrop seg cs with
    | some cs' => globAfter rest cs'
    | none => false

/-- Matcher for the anchored pattern `^seg₀.*seg₁...segₙ$` obtained from
splitting a wildcard rule at `*` (app.js lines 619-623): no `*` means
exact equality, otherwise the first segment must be a prefix and the
rest is handled by `globAfter`. -/
def globMatch : List (List Char) → List Char → Bool
  | [], cs => cs.isEmpty
  | [seg], cs => seg == cs
  | seg :: rest, cs => prefOf seg cs && globAfter rest (cs.drop seg.length)

/-- Model of `new RegExp("^" + rule.split("*").map(escapeRegex).join(".*") + "$", "i").test(s)`:
the escaped segments are literal strings, and the `i` flag is modelled by
lower-casing both sides. -/
def matchWildcard (s rule : String) : Bool :=
  globMatch (splitChAux (· = '*') [] (lowerStr rule).data) ((lowerStr s).data)

/-! ## Work item fields and filter rules -/

/-- A work item's (or template's) field map: a JS object from field
reference names to string values.  A key that is absent models a field
that is `undefined` on the object. -/
abbrev Fields := List (String × String)

/-- JS property read `obj[key]`, `none` for `undefined`. -/
def lookupF (fs : Fields) (k : String) : Option String :=
  (fs.find? (fun kv => kv.1 == k)).map (·.2)

/-- A value of one field of a parsed `applywhen` filter rule: a JSON
scalar (coerced to string), an array of scalars, or JSON `null`. -/
inductive FilterVal where
  | str (s : String)
  | arr (l : List String)
  | nul
  deriving DecidableEq, Repr

/-- A filter rule object: a JS object from field names to filter values. -/
abbrev Rule := List (String × FilterVal)

/-- JS property read `rule[fieldName]`. -/
def ruleLookup (el : Rule) (f : String) : Option FilterVal :=
  (el.find? (fun kv => kv.1 == f)).map (·.2)

/-- Model of `filterVal.toString()`: JS `Array.prototype.toString` joins elements
with commas; the `null` case is unreachable behind the null guard and
follows the `filterVal == null ? '' : ...` ternary. -/
def fvToString : FilterVal → String
  | .str s => s
  | .arr [] => ""
  | .arr (x :: xs) => xs.foldl (fun acc y => acc ++ "," ++ y) x
  | .nul => ""

/-- Normalization of `System.Tags` raw values into the lower-cased token
set `norm.tagsLowerSet` (app.js lines 588-594): collapse unicode
whitespace, trim, split at semicolons, trim + lower-case each token and
drop empty tokens.  Note commas and newlines are not delimiters here. -/
def semiTokens (s : String) : List String :=
  ((splitStr (· = ';') (trimStr (collapseWs s))).map trimLowerStr).filter (· ≠ "")

/-- Model of `toTagArray` (app.js lines 634-643), applied to the rule side of a
tags filter: arrays are trimmed + lower-cased element-wise, strings are
whitespace-normalized and split at semicolons and commas; empty tokens
are dropped. -/
def toTagArray : FilterVal → List String
  | .arr l => (l.map trimLowerStr).filter (· ≠ "")
  | .nul => []
  | .str s =>
    ((splitStr (fun c => c = ';' ∨ c = ',') (trimStr (collapseWs s))).map
      trimLowerStr).filter (· ≠ "")

/-- The seven scalar fields whose lower-cased values are precomputed into
`norm.lower` (app.js lines 569-577). -/
def scalarFields : List String :=
  ["System.WorkItemType", "System.State", "System.AreaPath",
   "System.IterationPath", "System.BoardColumn", "System.BoardLane",
   "System.Title"]

/-- The `__norm` normalization cache attached to a work item by
`matchField` (app.js lines 561-599).  The compiled title regexes stored
in `titleRegexCache` are determined by their rule string, so the model
records only the cached rule strings. -/
structure Norm where
  lower : List (String × String)
  tagsLowerSet : List String
  titleRegexCache : List String
  deriving DecidableEq, Repr

/-- The item side of tag matching (app.js lines 584-598): the
`System.Tags` raw value normalized into lower-cased tokens, empty when
the field is missing. -/
def itemTagSet (fields : Fields) : List String :=
  match lookupF fields "System.Tags" with
  | none => []
  | some raw => semiTokens raw

/-- Building the normalization cache from the work item's fields
(app.js lines 563-599): lower-cased scalar projections (empty string for
a missing field) and the lower-cased tag token set. -/
def computeNorm (fields : Fields) : Norm where
  lower := scalarFields.map (fun sf =>
    (sf, match lookupF fields sf with
         | none => ""
         | some v => lowerStr v))
  tagsLowerSet := itemTagSet fields
  titleRegexCache := []

/-- Model of `norm.lower[fieldName]`, with `undefined` read as the falsy `""`
(the code only consumes it through `||` chains and `.test`). -/
def normLower (n : Norm) (f : String) : String :=
  ((n.lower.find? (fun kv => kv.1 == f)).map (·.2)).getD ""

/-- JS `a || b` on strings: `""` (and modelled `undefined`) is falsy. -/
def jsOrStr (a b : String) : String :=
  if a = "" then b else a

/-- The pure comparison core of `matchField` (app.js lines 602-665),
evaluated against a given normalization cache:
absent/null filter → match; `System.Title` → anchored case-insensitive
wildcard test on the normalized title; `System.Tags` → every rule tag
must be in the item's tag set; other fields with an array filter →
any-of comparison; otherwise scalar case-insensitive equality with a
missing current value never matching.  (The alias fallback at lines
629-631 is dead code behind the null guard and is omitted.) -/
def matchFieldWithNorm (n : Norm) (fields : Fields) (fieldName : String)
    (el : Rule) : Bool :=
  match ruleLookup el fieldName with
  | none => true
  | some .nul => true
  | some fv =>
    if fieldName = "System.Title" then
      matchWildcard (normLower n "System.Title") (fvToString fv)
    else if fieldName = "System.Tags" then
      (toTagArray fv).all (fun t => n.tagsLowerSet.contains t)
    else
      match fv with
      | .arr l =>
        let curStr := jsOrStr (normLower n fieldName)
          (match lookupF fields fieldName with
           | none => ""
           | some v => lowerStr v)
        l.any (fun v => lowerStr v == curStr)
      | .str s =>
        match lookupF fields fieldName with
        | none => false
        | some cur => lowerStr s == jsOrStr (normLower n fieldName) (lowerStr cur)
      | .nul => true

/-- A work item as seen by `matchField`: its fields plus the hidden
`__norm` cache property. -/
structure WorkItem where
  fields : Fields
  norm : Option Norm
  deriving Repr

/-- Update of `norm.titleRegexCache` performed by the title branch
(app.js lines 617-622): the compiled regex for a title rule string is
memoized under that string. -/
def updateTitleCache (n : Norm) (fieldName : String) (el : Rule) : Norm :=
  if fieldName = "System.Title" then
    match ruleLookup el fieldName with
    | none => n
    | some .nul => n
    | some fv =>
      let r := fvToString fv
      if n.titleRegexCache.contains r then n
      else { n with titleRegexCache := r :: n.titleRegexCache }
  else n

/-- Model of `matchField` (app.js lines 558-665): reuse or build the `__norm`
cache on the work item, evaluate the filter, and return the updated
work item alongside the boolean result. -/
def matchField (item : WorkItem) (fieldName : String) (el : Rule) :
    Bool × WorkItem :=
  let n := match item.norm with
           | some n => n
           | none => computeNorm item.fields
  (matchFieldWithNorm n item.fields fieldName el,
   { fields := item.fields, norm := some (updateTitleCache n fieldName el) })

/-- The observable behaviour of `matchField` on a work item whose cache
is in its freshly-computed state (cache transparency is established
separately). -/
def matchFieldPure (fields : Fields) (fieldName : String) (el : Rule) : Bool :=
  matchFieldWithNorm (computeNorm fields) fields fieldName el

/-! ## Template applicability engine (`isValidTemplateWIT`) -/

/-- The cheapest-first field order used when evaluating one `applywhen`
rule (app.js lines 500-509). -/
def orderedFields : List String :=
  ["System.WorkItemType", "System.State", "System.AreaPath",
   "System.IterationPath", "System.BoardColumn", "System.BoardLane",
   "System.Title", "System.Tags"]

/-- Evaluation of one `applywhen` rule object (the body of the `some`
callback, app.js lines 513-521): fields not present on the rule are
skipped, every present field must satisfy `matchField`. -/
def ruleMatches (fields : Fields) (el : Rule) : Bool :=
  orderedFields.all (fun f =>
    match ruleLookup el f with
    | none => true
    | some _ => matchFieldPure fields f el)

/-- One element of a parsed `applywhen` JSON array: `null` (a property
read on it throws a `TypeError`), another primitive (property reads
yield `undefined`, so every field is skipped), or a rule object. -/
inductive RuleElem where
  | jnull
  | prim
  | obj (el : Rule)
  deriving DecidableEq, Repr

/-- Evaluating a single `applywhen` element inside the `try` block
(app.js lines 511-527): a thrown `TypeError` is surfaced as `.error`. -/
def evalRuleElem (fields : Fields) : RuleElem → Except Unit Bool
  | .jnull => .error ()
  | .prim => .ok true
  | .obj el => .ok (ruleMatches fields el)

/-- Model of `jsonFilters.applywhen.some(...)` with its `try`/`catch` (app.js
lines 511-528): a rule whose evaluation throws is treated as
non-matching and iteration continues. -/
def applywhenMatch (fields : Fields) (rules : List RuleElem) : Bool :=
  rules.any (fun el =>
    match evalRuleElem fields el with
    | .ok b => b
    | .error _ => false)

/-- The bracket-mode fallback (app.js lines 532-548): collect the
bracketed groups of the description, split each at commas, and look for
the first token whose trimmed lower-cased form equals the parent's
work item type; the JS `if (found)` truthiness test rejects an empty
found token. -/
def bracketApplicable (fields : Fields) (description : String) : Bool :=
  let wit := (lookupF fields "System.WorkItemType").getD ""
  (delimRuns '[' ']' description).any (fun grp =>
    match (splitStr (· = ',') grp).find?
        (fun f => trimLowerStr f == lowerStr wit) with
    | some found => found ≠ ""
    | none => false)

/-- Model of `isValidTemplateWIT` (app.js lines 487-549).  The host primitive
`JSON.parse` inside `extractJSON` and the
`Array.isArray(jsonFilters.applywhen)` shape test are modelled by the
`applywhen` parameter: `some rules` when the description yields an
embedded JSON object with an `applywhen` array, `none` otherwise. -/
def isValidTemplateWIT (fields : Fields) (applywhen : Option (List RuleElem))
    (description : String) : Bool :=
  match applywhen with
  | some rules => applywhenMatch fields rules
  | none => bracketApplicable fields description

/-! ## Rule extractor (`extractJSON`) -/

/-- Model of `str.substring(a, b)` as a character slice. -/
def strSlice (s : String) (a b : Nat) : String :=
  ⟨(s.data.drop a).take (b - a)⟩

/-- Positions of a given character in a string, ascending. -/
def charPositions (c : Char) (s : String) : List Nat :=
  (List.range s.data.length).filter (fun i => s.data.getD i ' ' = c)

/-- Model of `isPossiblyBalanced` (app.js lines 804-815): scan the slice
`[start, fin]` and reject when a closing brace ever precedes its opening
brace; surplus opening braces are allowed. -/
def isPossiblyBalanced (s : String) (start fin : Nat) : Bool :=
  (((s.data.drop start).take (fin + 1 - start)).foldl
    (fun st c =>
      match st with
      | none => none
      | some bal =>
        if c = '{' then some (bal + 1)
        else if c = '}' then (if bal = 0 then none else some (bal - 1))
        else some bal)
    (some 0)).isSome

/-- Outcome of the inner close-brace loop of `extractJSON`: a parsed
object, the attempt cap reached, or advance to the next opening brace,
each carrying the current failed-attempt count. -/
inductive ExtractStep (α : Type) where
  | found (v : α) (attempts : Nat)
  | capped (attempts : Nat)
  | next (attempts : Nat)

/-- The inner loop of `extractJSON` (app.js lines 820-838): for a fixed
opening brace position `start`, try closing positions from the right
(`closesRev` is the close-brace list reversed); stop at the first
position not beyond `start`, skip impossible spans, count failed parses
and give up at `MAX_ATTEMPTS = 100`. -/
def tryCloses {α : Type} (parse : String → Option α) (s : String)
    (start : Nat) : List Nat → Nat → ExtractStep α
  | [], a => .next a
  | e :: rest, a =>
    if e ≤ start then .next a
    else if ¬ isPossiblyBalanced s start e then tryCloses parse s start rest a
    else
      match parse (strSlice s start (e + 1)) with
      | some v => .found v a
      | none =>
        if a + 1 ≥ 100 then .capped (a + 1)
        else tryCloses parse s start rest (a + 1)

/-- The outer loop of `extractJSON` (app.js lines 818-839): opening
brace positions left to right. -/
def tryOpens {α : Type} (parse : String → Option α) (s : String) :
    List Nat → List Nat → Nat → Option α × Nat
  | [], _, a => (none, a)
  | st :: more, closesRev, a =>
    match tryCloses parse s st closesRev a with
    | .found v a' => (some v, a')
    | .capped a' => (none, a')
    | .next a' => tryOpens parse s more closesRev a'

/-- Model of `extractJSON` (app.js lines 770-845), with `JSON.parse` abstracted
as the total `parse` oracle (`none` modelling a thrown `SyntaxError`)
and the returned start/end indices dropped.  Returns the extracted value
(if any) together with the number of failed parse attempts counted by
the candidate search; the fast path (lines 777-789) does not count its
failure. -/
def extractJSON {α : Type} (parse : String → Option α) (s : String) :
    Option α × Nat :=
  let trimmed := trimStr s
  let fast : Option α :=
    if trimmed.data.length > 1 ∧ trimmed.data.getD 0 ' ' = '{' ∧
        trimmed.data.getLast? = some '}' then
      parse trimmed
    else none
  match fast with
  | some v => (some v, 0)
  | none =>
    let opens := charPositions '{' s
    let closes := charPositions '}' s
    if opens.isEmpty ∨ closes.isEmpty then (none, 0)
    else tryOpens parse s opens closes.reverse 0

/-! ## Placeholder substitution (`replaceReferenceToParentField`) -/

/-- Replacement of the first occurrence of `pat` by `rep`
(`String.prototype.replace` with a string pattern; `$`-patterns in the
replacement are not exercised by the claims and are not modelled). -/
def replFirstAux (pat rep : List Char) : List Char → List Char
  | [] => []
  | c :: rest =>
    if prefOf pat (c :: rest) then rep ++ (c :: rest).drop pat.length
    else c :: replFirstAux pat rep rest

/-- Model of `fieldValue.replace('{' + f + '}', parentValue)`. -/
def jsReplaceFirst (s pat rep : String) : String :=
  if pat.data.isEmpty then ⟨rep.data ++ s.data⟩
  else ⟨replFirstAux pat.data rep.data s.data⟩

/-- Model of `replaceReferenceToParentField` (app.js lines 106-117): collect the
`{Field}` placeholder names with `match(/[^{\}]+(?=})/g)` on the
original value, then for each name replace the first occurrence of
`{name}`.  A missing parent field gives `undefined`, which
`String.prototype.replace` coerces to the literal string
`"undefined"`. -/
def replaceReferenceToParentField (fieldValue : String)
    (currentWorkItem : Fields) : String :=
  (delimRuns '{' '}' fieldValue).foldl
    (fun fv pf =>
      jsReplaceFirst fv ("\x7b" ++ pf ++ "\x7d")
        ((lookupF currentWorkItem pf).getD "undefined"))
    fieldValue

/-! ## Child-item synthesizer (`createWorkItemFromTemplate`) -/

/-- Team settings as consumed by the synthesizer: `backlogIteration` is
an object with a `name` (host contract), `defaultIteration` (or its
`path`) may be missing, modelled as `none`. -/
structure TeamSettings where
  backlogIterationName : String
  defaultIterationPath : Option String
  deriving DecidableEq, Repr

/-- One JSON patch operation `{ op: "add", path, value }`; `value` is
`none` when the code pushes a `null`/`undefined` parent value. -/
structure PatchOp where
  op : String
  path : String
  value : Option String
  deriving DecidableEq, Repr

/-- Model of `isPropertyValid` (app.js lines 83-98): the key must be a field of
the template, must not contain `System.Tags`, and its value must not be
the `@me` or `@currentiteration` token. -/
def isPropertyValid (tfields : Fields) (key : String) : Bool :=
  match lookupF tfields key with
  | none => false
  | some v =>
    if containsSub "System.Tags".data key.data then false
    else if lowerStr v = "@me" then false
    else if lowerStr v = "@currentiteration" then false
    else true

/-- The truthiness test
`teamSettings && teamSettings.defaultIteration && teamSettings.defaultIteration.path`
(app.js line 175). -/
def hasDefaultIteration : Option TeamSettings → Bool
  | none => false
  | some ts =>
    match ts.defaultIterationPath with
    | none => false
    | some p => p ≠ ""

/-- The template-driven loop of `createWorkItemFromTemplate` (app.js
lines 133-158): every valid template field yields one operation, an
empty template value copying the parent's value when the parent has
one. -/
def synthStep1 (currentWorkItem tfields : Fields) : List PatchOp :=
  tfields.filterMap (fun kv =>
    if isPropertyValid tfields kv.1 then
      if kv.2 = "" then
        match lookupF currentWorkItem kv.1 with
        | some pv => some ⟨"add", "/fields/" ++ kv.1, some pv⟩
        | none => none
      else
        some ⟨"add", "/fields/" ++ kv.1,
              some (replaceReferenceToParentField kv.2 currentWorkItem)⟩
    else none)

/-- Title inheritance (app.js lines 161-163). -/
def synthStep2 (currentWorkItem tfields : Fields) : List PatchOp :=
  match lookupF tfields "System.Title" with
  | none => [⟨"add", "/fields/System.Title", lookupF currentWorkItem "System.Title"⟩]
  | some _ => []

/-- Area path inheritance (app.js lines 166-168). -/
def synthStep3 (currentWorkItem tfields : Fields) : List PatchOp :=
  match lookupF tfields "System.AreaPath" with
  | none => [⟨"add", "/fields/System.AreaPath", lookupF currentWorkItem "System.AreaPath"⟩]
  | some _ => []

/-- Iteration path handling (app.js lines 171-182): copy the parent's
value when the template has none; resolve `@currentiteration` to
`backlogIteration.name + defaultIteration.path` when the team has a
default iteration, falling back to the parent's value otherwise. -/
def synthStep4 (currentWorkItem tfields : Fields)
    (teamSettings : Option TeamSettings) : List PatchOp :=
  match lookupF tfields "System.IterationPath" with
  | none =>
    [⟨"add", "/fields/System.IterationPath",
      lookupF currentWorkItem "System.IterationPath"⟩]
  | some v =>
    if lowerStr v = "@currentiteration" then
      if hasDefaultIteration teamSettings then
        match teamSettings with
        | some ts =>
          [⟨"add", "/fields/System.IterationPath",
            some (ts.backlogIterationName ++ ts.defaultIterationPath.getD "")⟩]
        | none => []
      else
        [⟨"add", "/fields/System.IterationPath",
          lookupF currentWorkItem "System.IterationPath"⟩]
    else []

/-- The `@me` resolution for `System.AssignedTo` (app.js lines 185-189). -/
def synthStep5 (tfields : Fields) (userUniqueName : String) : List PatchOp :=
  match lookupF tfields "System.AssignedTo" with
  | none => []
  | some v =>
    if lowerStr v = "@me" then
      [⟨"add", "/fields/System.AssignedTo", some userUniqueName⟩]
    else []

/-- The `System.Tags-Add` handling (app.js lines 192-194). -/
def synthStep6 (tfields : Fields) : List PatchOp :=
  match lookupF tfields "System.Tags-Add" with
  | none => []
  | some v => [⟨"add", "/fields/System.Tags", some v⟩]

/-- Model of `createWorkItemFromTemplate` (app.js lines 127-197): the
template-driven loop followed by the special-case steps for title, area
path, iteration path (`@currentiteration`), assigned-to (`@me`) and
`System.Tags-Add`, pushed in that order. -/
def createWorkItemFromTemplate (currentWorkItem : Fields) (tfields : Fields)
    (teamSettings : Option TeamSettings) (userUniqueName : String) :
    List PatchOp :=
  synthStep1 currentWorkItem tfields ++
  synthStep2 currentWorkItem tfields ++
  synthStep3 currentWorkItem tfields ++
  synthStep4 currentWorkItem tfields teamSettings ++
  synthStep5 tfields userUniqueName ++
  synthStep6 tfields

/-! ## Helper lemmas -/

theorem string_ext {a b : String} (h : a.data = b.data) : a = b := by
  cases a; cases b; exact congrArg String.mk h

theorem string_append_left_cancel {a b c : String} (h : a ++ b = a ++ c) :
    b = c := by
  have hd := congrArg String.data h
  rw [String.data_append, String.data_append] at hd
  exact string_ext (List.append_cancel_left hd)

theorem updateTitleCache_lower (n : Norm) (f : String) (el : Rule) :
    (updateTitleCache n f el).lower = n.lower ∧
    (updateTitleCache n f el).tagsLowerSet = n.tagsLowerSet := by
  unfold updateTitleCache
  split
  · split
    · exact ⟨rfl, rfl⟩
    · exact ⟨rfl, rfl⟩
    · dsimp only
      split <;> exact ⟨rfl, rfl⟩
  · exact ⟨rfl, rfl⟩

theorem matchFieldWithNorm_ext (n n' : Norm) (h1 : n.lower = n'.lower)
    (h2 : n.tagsLowerSet = n'.tagsLowerSet) (fs : Fields) (f : String)
    (el : Rule) :
    matchFieldWithNorm n fs f el = matchFieldWithNorm n' fs f el := by
  cases n
  cases n'
  cases h1
  cases h2
  unfold matchFieldWithNorm
  cases hl : ruleLookup el f with
  | none => rfl
  | some fv => cases fv <;> rfl

/-! ## Claim theorems -/

/-- C1: `matchField` on `System.Tags` implements AND/subset semantics:
it returns true iff every lower-cased, trimmed, non-empty rule tag is a
member of the lower-cased, trimmed, non-empty tag set derived from the
item's `System.Tags` value. -/
theorem matchField_tags_subset_iff (fields : Fields) (el : Rule)
    (fv : FilterVal) (hfv : ruleLookup el "System.Tags" = some fv)
    (hnn : fv ≠ FilterVal.nul) :
    matchFieldPure fields "System.Tags" el = true ↔
      ∀ t ∈ toTagArray fv, t ∈ itemTagSet fields := by
  unfold matchFieldPure matchFieldWithNorm
  rw [hfv]
  cases fv with
  | nul => exact absurd rfl hnn
  | str s => simp [computeNorm, List.all_eq_true, List.elem_iff]
  | arr l => simp [computeNorm, List.all_eq_true, List.elem_iff]

/-- Witness for C1 at the spec's own example. -/
theorem matchField_tags_subset_iff_witness :
    matchFieldPure [("System.Tags", "Security;Backend;Urgent")] "System.Tags"
      [("System.Tags", FilterVal.arr ["Security", "Backend"])] = true ↔
    ∀ t ∈ toTagArray (FilterVal.arr ["Security", "Backend"]),
      t ∈ itemTagSet [("System.Tags", "Security;Backend;Urgent")] :=
  matchField_tags_subset_iff _ _ _ (by decide) (by decide)

/-- C2 counterexample: a placeholder for a field missing on the parent is
replaced by the literal string `"undefined"` (JS string coercion of
`undefined` in `String.prototype.replace`), not removed. -/
theorem placeholder_missing_parent_not_removed :
    replaceReferenceToParentField "Sub for {System.Title}" [] =
      "Sub for undefined" ∧
    replaceReferenceToParentField "Sub for {System.Title}" [] ≠
      "Sub for " := by
  decide

/-- C5 counterexample: the item side of tag matching splits only at
semicolons, so a work item tagged `"A,B"` has the single token `"a,b"`
(and a rule requiring tag `"a"`, which the claim's comma-splitting
normalization would satisfy, does not match). -/
theorem item_tags_not_comma_split :
    itemTagSet [("System.Tags", "A,B")] = ["a,b"] ∧
    matchFieldPure [("System.Tags", "A,B")] "System.Tags"
      [("System.Tags", FilterVal.arr ["A"])] = false := by
  decide

/-- C5 amended: the item's normalized tag set is obtained by collapsing
whitespace, trimming, splitting at semicolons only, trimming and
lower-casing each token, and dropping empty tokens; `"A,B"` therefore
yields the single token `"a,b"` while `"A;B"` yields `"a"` and `"b"`,
and matching requires every rule tag to occur in that semicolon-derived
set. -/
theorem item_tags_semicolon_semantics (raw : String) (rl : List String) :
    (matchFieldPure [("System.Tags", raw)] "System.Tags"
        [("System.Tags", FilterVal.arr rl)] = true ↔
      ∀ t ∈ (rl.map trimLowerStr).filter (· ≠ ""),
        t ∈ ((splitStr (· = ';') (trimStr (collapseWs raw))).map
              trimLowerStr).filter (· ≠ "")) ∧
    itemTagSet [("System.Tags", "A,B")] = ["a,b"] ∧
    itemTagSet [("System.Tags", "A;B")] = ["a", "b"] := by
  refine ⟨?_, by decide, by decide⟩
  have h := matchField_tags_subset_iff [("System.Tags", raw)]
    [("System.Tags", FilterVal.arr rl)] (FilterVal.arr rl) rfl (by simp)
  simpa [toTagArray, itemTagSet, lookupF, semiTokens] using h

/-- C10: `matchField` only attaches the `__norm` cache to the work item,
leaving its fields untouched, and a repeated call on the cache-carrying
item returns the same result. -/
theorem matchField_frame_and_idempotent (item : WorkItem) (f : String)
    (el : Rule) :
    (matchField item f el).2.fields = item.fields ∧
    (matchField item f el).2.norm.isSome = true ∧
    (matchField (matchField item f el).2 f el).1 = (matchField item f el).1 := by
  refine ⟨rfl, rfl, ?_⟩
  unfold matchField
  dsimp only
  exact matchFieldWithNorm_ext _ _ (updateTitleCache_lower _ f el).1
    (updateTitleCache_lower _ f el).2 _ f el

/-- C3: with an extracted `applywhen` array of rule objects, the
template is applicable iff some rule matches, and a rule matches iff
every recognized field it specifies satisfies `matchField` — OR across
rules, AND across the fields of one rule. -/
theorem applywhen_or_rules_and_fields (fields : Fields)
    (rules : List RuleElem) (d : String)
    (hobj : ∀ el ∈ rules, ∃ a, el = RuleElem.obj a) :
    isValidTemplateWIT fields (some rules) d = true ↔
      ∃ a, RuleElem.obj a ∈ rules ∧
        ∀ f ∈ orderedFields, (ruleLookup a f).isSome →
          matchFieldPure fields f a = true := by
  show applywhenMatch fields rules = true ↔ _
  unfold applywhenMatch
  rw [List.any_eq_true]
  constructor
  · rintro ⟨el, hmem, hval⟩
    obtain ⟨a, rfl⟩ := hobj el hmem
    refine ⟨a, hmem, ?_⟩
    have hrm : ruleMatches fields a = true := by
      simpa [evalRuleElem] using hval
    rw [ruleMatches, List.all_eq_true] at hrm
    intro f hf hspec
    have := hrm f hf
    cases hl : ruleLookup a f with
    | none => simp [hl] at hspec
    | some fv => simpa [hl] using this
  · rintro ⟨a, hmem, hall⟩
    refine ⟨RuleElem.obj a, hmem, ?_⟩
    have hrm : ruleMatches fields a = true := by
      rw [ruleMatches, List.all_eq_true]
      intro f hf
      cases hl : ruleLookup a f with
      | none => simp
      | some fv => simpa using hall f hf (by simp [hl])
    simpa [evalRuleElem] using hrm

/-- Witness for C3 at the readme's end-to-end example rule. -/
theorem applywhen_or_rules_and_fields_witness :
    isValidTemplateWIT
      [("System.WorkItemType", "Product Backlog Item"),
       ("System.State", "Approved"),
       ("System.Tags", "Blah;ClickMe")]
      (some [RuleElem.obj
        [("System.State", FilterVal.str "Approved"),
         ("System.Tags", FilterVal.arr ["Blah", "ClickMe"]),
         ("System.WorkItemType", FilterVal.str "Product Backlog Item")]])
      "" = true ↔
    ∃ a, RuleElem.obj a ∈
        [RuleElem.obj
          [("System.State", FilterVal.str "Approved"),
           ("System.Tags", FilterVal.arr ["Blah", "ClickMe"]),
           ("System.WorkItemType", FilterVal.str "Product Backlog Item")]] ∧
      ∀ f ∈ orderedFields, (ruleLookup a f).isSome →
        matchFieldPure
          [("System.WorkItemType", "Product Backlog Item"),
           ("System.State", "Approved"),
           ("System.Tags", "Blah;ClickMe")] f a = true :=
  applywhen_or_rules_and_fields _ _ _
    (by intro el hel; rw [List.mem_singleton] at hel; exact ⟨_, hel⟩)

/-- C4: with no extracted `applywhen` array the template is applicable
iff the parent's work item type, case-insensitively, equals some trimmed
comma-separated token of a bracketed group of the description; with no
bracketed content the right-hand side is vacuous and the template is not
applicable.  Only `System.WorkItemType` is consulted. -/
theorem bracket_mode_type_membership (fields : Fields) (d : String)
    (wit : String) (hwit : lookupF fields "System.WorkItemType" = some wit)
    (hne : wit ≠ "") :
    isValidTemplateWIT fields none d = true ↔
      ∃ grp ∈ delimRuns '[' ']' d, ∃ tok ∈ splitStr (· = ',') grp,
        trimLowerStr tok = lowerStr wit := by
  show bracketApplicable fields d = true ↔ _
  unfold bracketApplicable
  rw [hwit]
  simp only [Option.getD_some]
  rw [List.any_eq_true]
  constructor
  · rintro ⟨grp, hg, hval⟩
    cases hfind : (splitStr (· = ',') grp).find?
        (fun f => trimLowerStr f == lowerStr wit) with
    | none => rw [hfind] at hval; exact absurd hval (by simp)
    | some found =>
      refine ⟨grp, hg, found, List.mem_of_find?_eq_some hfind, ?_⟩
      have := List.find?_some hfind
      exact eq_of_beq this
  · rintro ⟨grp, hg, tok, htokmem, htok⟩
    refine ⟨grp, hg, ?_⟩
    have hsome : ((splitStr (· = ',') grp).find?
        (fun f => trimLowerStr f == lowerStr wit)).isSome := by
      rw [List.find?_isSome]
      exact ⟨tok, htokmem, by simp [htok]⟩
    cases hfind : (splitStr (· = ',') grp).find?
        (fun f => trimLowerStr f == lowerStr wit) with
    | none => rw [hfind] at hsome; simp at hsome
    | some found =>
      have hfb := List.find?_some hfind
      have hpred : trimLowerStr found = lowerStr wit := eq_of_beq hfb
      dsimp only
      simp only [decide_eq_true_eq]
      intro hemp
      apply hne
      have : lowerStr wit = "" := by
        rw [← hpred, hemp]; rfl
      cases hw : wit with
      | mk l =>
        rw [hw] at this
        have hl := congrArg String.data this
        simp [lowerStr] at hl
        exact string_ext (by simp [hl])

/-- Witness for C4 at the readme's basic bracket example. -/
theorem bracket_mode_type_membership_witness :
    isValidTemplateWIT [("System.WorkItemType", "Bug")] none
      "[Product Backlog Item, Bug]" = true ↔
    ∃ grp ∈ delimRuns '[' ']' "[Product Backlog Item, Bug]",
      ∃ tok ∈ splitStr (· = ',') grp,
        trimLowerStr tok = lowerStr "Bug" :=
  bracket_mode_type_membership _ _ _ (by decide) (by decide)

/-- C7: a rule whose evaluation throws is treated as non-matching and
the remaining rules are still evaluated, so the overall decision is the
disjunction of the other rules' outcomes and a later matching rule
still makes the template applicable. -/
theorem malformed_rule_skipped (fields : Fields) (pre post : List RuleElem)
    (bad : RuleElem) (hb : evalRuleElem fields bad = .error ()) :
    applywhenMatch fields (pre ++ bad :: post) =
      (applywhenMatch fields pre || applywhenMatch fields post) ∧
    ((∃ el ∈ post, evalRuleElem fields el = .ok true) →
      applywhenMatch fields (pre ++ bad :: post) = true) := by
  constructor
  · unfold applywhenMatch
    rw [List.any_append, List.any_cons, hb]
    simp
  · rintro ⟨el, hmem, hok⟩
    unfold applywhenMatch
    rw [List.any_eq_true]
    exact ⟨el, by simp [hmem], by rw [hok]⟩

/-- Witness for C7: a `null` rule throws on field access, yet the later
well-formed matching rule makes the template applicable. -/
theorem malformed_rule_skipped_witness :
    applywhenMatch [("System.WorkItemType", "Bug")]
      ([] ++ RuleElem.jnull ::
        [RuleElem.obj [("System.WorkItemType", FilterVal.str "bug")]]) = true :=
  (malformed_rule_skipped [("System.WorkItemType", "Bug")] []
    [RuleElem.obj [("System.WorkItemType", FilterVal.str "bug")]]
    RuleElem.jnull rfl).2
    ⟨RuleElem.obj [("System.WorkItemType", FilterVal.str "bug")],
     List.mem_singleton.mpr rfl,
     by show Except.ok _ = Except.ok true
        exact congrArg Except.ok (by decide)⟩

/-- Invariant carried by the candidate search: results report at most
100 failed attempts, and continuing to the next opening brace keeps the
count strictly below the cap. -/
def stepOk {α : Type} : ExtractStep α → Prop
  | .found _ a => a ≤ 100
  | .capped a => a ≤ 100
  | .next a => a < 100

theorem tryCloses_ok {α : Type} (parse : String → Option α) (s : String)
    (start : Nat) : ∀ (closes : List Nat) (a : Nat), a < 100 →
    stepOk (tryCloses parse s start closes a) := by
  intro closes
  induction closes with
  | nil => intro a ha; rw [tryCloses]; exact ha
  | cons e rest ih =>
    intro a ha
    rw [tryCloses]
    split
    · exact ha
    · split
      · exact ih a ha
      · split
        · exact Nat.le_of_lt ha
        · split
          · show a + 1 ≤ 100
            omega
          · exact ih (a + 1) (by omega)

theorem tryOpens_ok {α : Type} (parse : String → Option α) (s : String) :
    ∀ (opens closesRev : List Nat) (a : Nat), a < 100 →
    (tryOpens parse s opens closesRev a).2 ≤ 100 := by
  intro opens
  induction opens with
  | nil => intro closesRev a ha; rw [tryOpens]; exact Nat.le_of_lt ha
  | cons st more ih =>
    intro closesRev a ha
    rw [tryOpens]
    have hok := tryCloses_ok parse s st closesRev a ha
    split
    · next v a' heq => rw [heq] at hok; exact hok
    · next a' heq => rw [heq] at hok; exact hok
    · next a' heq => rw [heq] at hok; exact ih closesRev a' hok

theorem tryCloses_no_found {α : Type} (parse : String → Option α)
    (s : String) (start : Nat) (hp : ∀ sub, parse sub = none) :
    ∀ (closes : List Nat) (a : Nat) (v : α) (a' : Nat),
    tryCloses parse s start closes a ≠ .found v a' := by
  intro closes
  induction closes with
  | nil => intro a v a' h; rw [tryCloses] at h; cases h
  | cons e rest ih =>
    intro a v a' h
    rw [tryCloses] at h
    split at h
    · cases h
    · split at h
      · exact ih a v a' h
      · split at h
        · next v0 heq =>
            rw [hp (strSlice s start (e + 1))] at heq
            cases heq
        · split at h
          · cases h
          · exact ih (a + 1) v a' h

theorem tryOpens_none {α : Type} (parse : String → Option α) (s : String)
    (hp : ∀ sub, parse sub = none) :
    ∀ (opens closesRev : List Nat) (a : Nat),
    (tryOpens parse s opens closesRev a).1 = none := by
  intro opens
  induction opens with
  | nil => intro closesRev a; rw [tryOpens]
  | cons st more ih =>
    intro closesRev a
    rw [tryOpens]
    split
    · next v a' heq => exact absurd heq (tryCloses_no_found parse s st hp _ _ _ _)
    · rfl
    · exact ih closesRev _

/-- C6: `extractJSON` is a total function (the Lean embedding terminates
by construction, mirroring the bounded JS loops), it yields `null`
rather than an exception whenever no substring parses as a JSON object,
and the candidate search counts at most `MAX_ATTEMPTS = 100` failed
parse attempts. -/
theorem extractJSON_cap_and_null {α : Type} (parse : String → Option α)
    (s : String) :
    (extractJSON parse s).2 ≤ 100 ∧
    ((∀ sub : String, parse sub = none) → (extractJSON parse s).1 = none) := by
  constructor
  · simp only [extractJSON]
    split
    · exact Nat.zero_le 100
    · split
      · exact Nat.zero_le 100
      · exact tryOpens_ok parse s _ _ 0 (by omega)
  · intro hp
    simp only [extractJSON]
    split
    · next v heq =>
      exfalso
      revert heq
      split
      · rw [hp]; exact fun h => by cases h
      · exact fun h => by cases h
    · split
      · rfl
      · exact tryOpens_none parse s hp _ _ 0

theorem prefOf_append_self (pat l : List Char) :
    prefOf pat (pat ++ l) = true := by
  induction pat with
  | nil => rfl
  | cons c pt ih => simp [prefOf, ih]

theorem replFirstAux_skip (c0 : Char) (pt rep : List Char) :
    ∀ (l₁ l₂ : List Char), c0 ∉ l₁ →
    replFirstAux (c0 :: pt) rep (l₁ ++ l₂) =
      l₁ ++ replFirstAux (c0 :: pt) rep l₂ := by
  intro l₁
  induction l₁ with
  | nil => intro l₂ _; rfl
  | cons a tl ih =>
    intro l₂ hnm
    have hne : c0 ≠ a := fun h => hnm (h ▸ List.mem_cons_self a tl)
    rw [List.cons_append, replFirstAux]
    have hp : prefOf (c0 :: pt) (a :: (tl ++ l₂)) = false := by
      simp [prefOf, hne]
    rw [hp]
    simp only [Bool.false_eq_true, if_false]
    rw [ih l₂ (fun h => hnm (List.mem_cons_of_mem a h))]
    simp

theorem replFirstAux_at_start (pat rep l₂ : List Char) (hne : pat ≠ []) :
    replFirstAux pat rep (pat ++ l₂) = rep ++ l₂ := by
  cases pat with
  | nil => exact absurd rfl hne
  | cons c0 pt =>
    rw [List.cons_append, replFirstAux]
    have hp : prefOf (c0 :: pt) (c0 :: (pt ++ l₂)) = true := by
      rw [show c0 :: (pt ++ l₂) = (c0 :: pt) ++ l₂ from rfl]
      exact prefOf_append_self _ _
    rw [hp]
    simp only [if_true]
    simp [List.drop_succ_cons, List.drop_left]

theorem delimRunsAux_skip (opC clC : Char) :
    ∀ (l₁ : List Char) (acc rest : List Char),
    (∀ c ∈ l₁, c ≠ opC ∧ c ≠ clC) →
    delimRunsAux opC clC acc (l₁ ++ rest) =
      delimRunsAux opC clC (l₁.reverse ++ acc) rest := by
  intro l₁
  induction l₁ with
  | nil => intro acc rest _; rfl
  | cons a tl ih =>
    intro acc rest hfree
    have ha := hfree a (List.mem_cons_self a tl)
    rw [List.cons_append, delimRunsAux]
    rw [if_neg (by simpa using ha.2), if_neg (by simpa using ha.1)]
    rw [ih (a :: acc) rest (fun c hc => hfree c (List.mem_cons_of_mem a hc))]
    rw [List.reverse_cons, List.append_assoc]
    rfl

theorem data_ne_nil_of_ne_empty {f : String} (h : f ≠ "") : f.data ≠ [] :=
  fun hd => h (string_ext (by simp [hd]))

/-- The placeholder list extracted from `pre ++ "\x7b" ++ f ++ "\x7d" ++ suf`
when `pre`, `f`, `suf` are brace-free and `f` is non-empty is exactly
`[f]`. -/
theorem delimRuns_single (pre f suf : String)
    (hpre : ∀ c ∈ pre.data, c ≠ '{' ∧ c ≠ '}')
    (hf : ∀ c ∈ f.data, c ≠ '{' ∧ c ≠ '}') (hfne : f ≠ "")
    (hsuf : ∀ c ∈ suf.data, c ≠ '{' ∧ c ≠ '}') :
    delimRuns '{' '}' (pre ++ "\x7b" ++ f ++ "\x7d" ++ suf) = [f] := by
  unfold delimRuns
  have hdata : (pre ++ "\x7b" ++ f ++ "\x7d" ++ suf).data =
      pre.data ++ ('{' :: (f.data ++ ('}' :: suf.data))) := by
    simp [String.data_append]
  rw [hdata]
  rw [delimRunsAux_skip '{' '}' pre.data [] _ hpre]
  rw [delimRunsAux]
  rw [if_neg (by decide), if_pos rfl]
  rw [delimRunsAux_skip '{' '}' f.data [] _ hf]
  rw [List.append_nil]
  have hflush : delimRunsAux '{' '}' f.data.reverse ('}' :: suf.data) =
      f :: delimRunsAux '{' '}' [] suf.data := by
    rw [delimRunsAux]
    have hfe : f.data.reverse.isEmpty = false := by
      cases hrev : f.data.reverse with
      | nil =>
        exact absurd (List.reverse_eq_nil_iff.mp hrev)
          (data_ne_nil_of_ne_empty hfne)
      | cons a l => rfl
    simp [hfe]
  rw [hflush]
  rw [show suf.data = suf.data ++ [] from (List.append_nil _).symm,
      delimRunsAux_skip '{' '}' suf.data [] _ hsuf]
  rfl

/-- C2 amended: for a value with a single brace-free placeholder `{f}`
(brace-free surroundings), the placeholder is replaced by the parent's
value of field `f` when present, and by the literal string
`"undefined"` when the parent has no such field.  In general the loop
replaces, per extracted placeholder name, the first occurrence of
`{name}` in the successively mutated string, so substituted text can
absorb later placeholders: `"{A}{B}"` with parent fields `A = "{B}"`,
`B = "z"` yields `"z{B}"`, not a per-occurrence `"{B}z"`. -/
theorem placeholder_substitution_resolved (pre f suf : String)
    (cwi : Fields)
    (hpre : ∀ c ∈ pre.data, c ≠ '{' ∧ c ≠ '}')
    (hf : ∀ c ∈ f.data, c ≠ '{' ∧ c ≠ '}') (hfne : f ≠ "")
    (hsuf : ∀ c ∈ suf.data, c ≠ '{' ∧ c ≠ '}') :
    (replaceReferenceToParentField (pre ++ "\x7b" ++ f ++ "\x7d" ++ suf) cwi =
      pre ++ (lookupF cwi f).getD "undefined" ++ suf) ∧
    replaceReferenceToParentField "{A}{B}" [("A", "{B}"), ("B", "z")] =
      "z{B}" := by
  refine ⟨?_, by decide⟩
  unfold replaceReferenceToParentField
  rw [delimRuns_single pre f suf hpre hf hfne hsuf]
  rw [List.foldl_cons, List.foldl_nil]
  unfold jsReplaceFirst
  have hpat : ("\x7b" ++ f ++ "\x7d").data = '{' :: (f.data ++ ['}']) := by
    simp [String.data_append]
  rw [hpat]
  rw [if_neg (by simp)]
  apply string_ext
  have hsrc : (pre ++ "\x7b" ++ f ++ "\x7d" ++ suf).data =
      pre.data ++ (('{' :: (f.data ++ ['}'])) ++ suf.data) := by
    simp [String.data_append]
  rw [hsrc]
  rw [replFirstAux_skip '{' (f.data ++ ['}']) _ pre.data _
    (fun hmem => ((hpre '{' hmem).1 rfl))]
  rw [replFirstAux_at_start _ _ _ (by simp)]
  simp [String.data_append]

/-- Witness for C2's amended claim at the spec's example. -/
theorem placeholder_substitution_resolved_witness :
    replaceReferenceToParentField "Sub for {System.Title}"
      [("System.Title", "Foo")] = "Sub for Foo" := by
  have h := (placeholder_substitution_resolved "Sub for " "System.Title" ""
    [("System.Title", "Foo")] (by decide) (by decide) (by decide) (by decide)).1
  rw [show ("Sub for " ++ "\x7b" ++ "System.Title" ++ "\x7d" ++ "" : String) =
      "Sub for {System.Title}" from by decide] at h
  rw [h]
  decide

/-- Witness for C6 on a description with braces that never parse. -/
theorem extractJSON_cap_and_null_witness :
    (extractJSON (fun _ => (none : Option Unit))
      "some notes {not valid json} more text [Bug]").2 ≤ 100 ∧
    (extractJSON (fun _ => (none : Option Unit))
      "some notes {not valid json} more text [Bug]").1 = none :=
  ⟨(extractJSON_cap_and_null _ _).1,
   (extractJSON_cap_and_null _ _).2 (fun _ => rfl)⟩

/-! ## Synthesizer lemmas -/

theorem lookupF_eq_some_of_mem {fs : Fields} {kv : String × String}
    (hnd : (fs.map Prod.fst).Nodup) (hm : kv ∈ fs) :
    lookupF fs kv.1 = some kv.2 := by
  induction fs with
  | nil => cases hm
  | cons a tl ih =>
    rcases List.mem_cons.mp hm with rfl | hmem
    · unfold lookupF
      rw [List.find?_cons_of_pos _ (by simp)]
      rfl
    · have hna : a.1 ≠ kv.1 := by
        intro h
        have hk : kv.1 ∈ tl.map Prod.fst := List.mem_map_of_mem Prod.fst hmem
        rw [← h] at hk
        exact (List.nodup_cons.mp hnd).1 hk
      unfold lookupF
      rw [List.find?_cons_of_neg _ (by simp [hna])]
      exact ih (List.nodup_cons.mp hnd).2 hmem

theorem lookupF_none_not_mem {fs : Fields} {k : String}
    (h : lookupF fs k = none) : ∀ kv ∈ fs, kv.1 ≠ k := by
  intro kv hm heq
  unfold lookupF at h
  rw [Option.map_eq_none', List.find?_eq_none] at h
  exact absurd (by simp [heq]) (h kv hm)

theorem mem_synthStep1 {cwi tf : Fields} {op : PatchOp}
    (h : op ∈ synthStep1 cwi tf) :
    ∃ kv ∈ tf, isPropertyValid tf kv.1 = true ∧
      op.path = "/fields/" ++ kv.1 := by
  obtain ⟨kv, hm, hf⟩ := List.mem_filterMap.mp h
  by_cases hv : isPropertyValid tf kv.1
  · refine ⟨kv, hm, hv, ?_⟩
    rw [if_pos hv] at hf
    by_cases he : kv.2 = ""
    · rw [if_pos he] at hf
      cases hl : lookupF cwi kv.1 with
      | none => rw [hl] at hf; cases hf
      | some pv => rw [hl] at hf; cases hf; rfl
    · rw [if_neg he] at hf
      cases hf
      rfl
  · rw [if_neg hv] at hf
    cases hf

theorem isPropertyValid_tags_key (tf : Fields) :
    isPropertyValid tf "System.Tags" = false := by
  unfold isPropertyValid
  cases h : lookupF tf "System.Tags" with
  | none => rfl
  | some v =>
    dsimp only
    rw [if_pos (by decide)]

theorem isPropertyValid_iteration_cur {tf : Fields} {v : String}
    (hl : lookupF tf "System.IterationPath" = some v)
    (hcur : lowerStr v = "@currentiteration") :
    isPropertyValid tf "System.IterationPath" = false := by
  unfold isPropertyValid
  rw [hl]
  dsimp only
  rw [if_neg (by decide)]
  by_cases hme : lowerStr v = "@me"
  · rw [if_pos hme]
  · rw [if_neg hme, if_pos hcur]

theorem isPropertyValid_assigned_me {tf : Fields} {v : String}
    (hl : lookupF tf "System.AssignedTo" = some v)
    (hme : lowerStr v = "@me") :
    isPropertyValid tf "System.AssignedTo" = false := by
  unfold isPropertyValid
  rw [hl]
  dsimp only
  rw [if_neg (by decide), if_pos hme]

theorem synthStep2_path_cond {cwi tf : Fields} {p : String}
    (h : p ∈ (synthStep2 cwi tf).map PatchOp.path) :
    p = "/fields/System.Title" ∧ lookupF tf "System.Title" = none := by
  unfold synthStep2 at h
  split at h
  · next heq => simp at h; exact ⟨h, heq⟩
  · simp at h

theorem synthStep3_path_cond {cwi tf : Fields} {p : String}
    (h : p ∈ (synthStep3 cwi tf).map PatchOp.path) :
    p = "/fields/System.AreaPath" ∧ lookupF tf "System.AreaPath" = none := by
  unfold synthStep3 at h
  split at h
  · next heq => simp at h; exact ⟨h, heq⟩
  · simp at h

theorem synthStep4_path_cond {cwi tf : Fields} {ts : Option TeamSettings}
    {p : String} (h : p ∈ (synthStep4 cwi tf ts).map PatchOp.path) :
    p = "/fields/System.IterationPath" ∧
      (lookupF tf "System.IterationPath" = none ∨
       ∃ v, lookupF tf "System.IterationPath" = some v ∧
         lowerStr v = "@currentiteration") := by
  unfold synthStep4 at h
  split at h
  · next heq => simp at h; exact ⟨h, Or.inl heq⟩
  · next v heq =>
    split at h
    · next hcur =>
      split at h
      · split at h
        · simp at h; exact ⟨h, Or.inr ⟨v, heq, hcur⟩⟩
        · simp at h
      · simp at h; exact ⟨h, Or.inr ⟨v, heq, hcur⟩⟩
    · simp at h

theorem synthStep5_path_cond {tf : Fields} {user p : String}
    (h : p ∈ (synthStep5 tf user).map PatchOp.path) :
    p = "/fields/System.AssignedTo" ∧
      ∃ v, lookupF tf "System.AssignedTo" = some v ∧ lowerStr v = "@me" := by
  unfold synthStep5 at h
  split at h
  · simp at h
  · next v heq =>
    split at h
    · next hme => simp at h; exact ⟨h, v, heq, hme⟩
    · simp at h

theorem synthStep6_path_cond {tf : Fields} {p : String}
    (h : p ∈ (synthStep6 tf).map PatchOp.path) :
    p = "/fields/System.Tags" := by
  unfold synthStep6 at h
  split at h
  · simp at h
  · simp at h; exact h

theorem synthStep1_map_path_aux (cwi tf : Fields) :
    ∀ l : Fields,
    (l.filterMap (fun kv =>
      if isPropertyValid tf kv.1 then
        if kv.2 = "" then
          match lookupF cwi kv.1 with
          | some pv => some (⟨"add", "/fields/" ++ kv.1, some pv⟩ : PatchOp)
          | none => none
        else
          some ⟨"add", "/fields/" ++ kv.1,
                some (replaceReferenceToParentField kv.2 cwi)⟩
      else none)).map PatchOp.path =
    (l.filter (fun kv => isPropertyValid tf kv.1 &&
      (kv.2 != "" || (lookupF cwi kv.1).isSome))).map
      (fun kv => "/fields/" ++ kv.1) := by
  intro l
  induction l with
  | nil => rfl
  | cons kv tl ih =>
    rw [List.filterMap_cons, List.filter_cons]
    by_cases hv : isPropertyValid tf kv.1
    · by_cases he : kv.2 = ""
      · cases hl : lookupF cwi kv.1 with
        | none => simp [hv, he, hl, ih]
        | some pv => simp [hv, he, hl, ih]
      · simp [hv, he, ih]
    · simp [hv, ih]

theorem synthStep1_paths (cwi tf : Fields) :
    (synthStep1 cwi tf).map PatchOp.path =
      (tf.filter (fun kv => isPropertyValid tf kv.1 &&
        (kv.2 != "" || (lookupF cwi kv.1).isSome))).map
        (fun kv => "/fields/" ++ kv.1) := by
  unfold synthStep1
  exact synthStep1_map_path_aux cwi tf tf

theorem synthStep1_paths_nodup (cwi tf : Fields)
    (hnd : (tf.map Prod.fst).Nodup) :
    ((synthStep1 cwi tf).map PatchOp.path).Nodup := by
  rw [synthStep1_paths]
  have h1 : ((tf.filter (fun kv => isPropertyValid tf kv.1 &&
      (kv.2 != "" || (lookupF cwi kv.1).isSome))).map Prod.fst).Nodup :=
    hnd.sublist ((List.filter_sublist tf).map Prod.fst)
  rw [show (fun kv : String × String => "/fields/" ++ kv.1) =
      (fun k => "/fields/" ++ k) ∘ Prod.fst from rfl, ← List.map_map]
  exact h1.map (fun a b h => string_append_left_cancel h)

/-- C9: the list of patch operations produced by the synthesizer
contains no two operations with the same path — the template-driven
step emits each template key at most once, and each later special-case
step only fires when the template did not already supply its field. -/
theorem patch_paths_nodup (cwi tf : Fields) (ts : Option TeamSettings)
    (user : String) (hnd : (tf.map Prod.fst).Nodup) :
    ((createWorkItemFromTemplate cwi tf ts user).map PatchOp.path).Nodup := by
  unfold createWorkItemFromTemplate
  simp only [List.map_append, List.append_assoc]
  have hsub2 : List.Sublist ((synthStep2 cwi tf).map PatchOp.path)
      ["/fields/System.Title"] := by
    unfold synthStep2
    split
    · exact List.Sublist.refl _
    · exact List.nil_sublist _
  have hsub3 : List.Sublist ((synthStep3 cwi tf).map PatchOp.path)
      ["/fields/System.AreaPath"] := by
    unfold synthStep3
    split
    · exact List.Sublist.refl _
    · exact List.nil_sublist _
  have hsub4 : List.Sublist ((synthStep4 cwi tf ts).map PatchOp.path)
      ["/fields/System.IterationPath"] := by
    unfold synthStep4
    split
    · exact List.Sublist.refl _
    · split
      · split
        · split
          · exact List.Sublist.refl _
          · exact List.nil_sublist _
        · exact List.Sublist.refl _
      · exact List.nil_sublist _
  have hsub5 : List.Sublist ((synthStep5 tf user).map PatchOp.path)
      ["/fields/System.AssignedTo"] := by
    unfold synthStep5
    split
    · exact List.nil_sublist _
    · split
      · exact List.Sublist.refl _
      · exact List.nil_sublist _
  have hsub6 : List.Sublist ((synthStep6 tf).map PatchOp.path)
      ["/fields/System.Tags"] := by
    unfold synthStep6
    split
    · exact List.nil_sublist _
    · exact List.Sublist.refl _
  have hTsub := hsub2.append (hsub3.append (hsub4.append
    (hsub5.append hsub6)))
  have hTnodup := (by decide :
    (["/fields/System.Title"] ++ (["/fields/System.AreaPath"] ++
      (["/fields/System.IterationPath"] ++ (["/fields/System.AssignedTo"] ++
        ["/fields/System.Tags"])))).Nodup).sublist hTsub
  refine (synthStep1_paths_nodup cwi tf hnd).append hTnodup ?_
  intro p hp1 hpT
  obtain ⟨op, hop, rfl⟩ := List.mem_map.mp hp1
  obtain ⟨kv, hkvm, hkvvalid, hpath⟩ := mem_synthStep1 hop
  rcases List.mem_append.mp hpT with h2 | hpT
  · obtain ⟨hpeq, hnone⟩ := synthStep2_path_cond h2
    rw [hpath] at hpeq
    exact lookupF_none_not_mem hnone kv hkvm (string_append_left_cancel hpeq)
  rcases List.mem_append.mp hpT with h3 | hpT
  · obtain ⟨hpeq, hnone⟩ := synthStep3_path_cond h3
    rw [hpath] at hpeq
    exact lookupF_none_not_mem hnone kv hkvm (string_append_left_cancel hpeq)
  rcases List.mem_append.mp hpT with h4 | hpT
  · obtain ⟨hpeq, hcases⟩ := synthStep4_path_cond h4
    rw [hpath] at hpeq
    have hk : kv.1 = "System.IterationPath" := string_append_left_cancel hpeq
    rcases hcases with hnone | ⟨v, hsome, hcur⟩
    · exact lookupF_none_not_mem hnone kv hkvm hk
    · have hfalse := isPropertyValid_iteration_cur hsome hcur
      rw [← hk] at hfalse
      simp [hfalse] at hkvvalid
  rcases List.mem_append.mp hpT with h5 | h6
  · obtain ⟨hpeq, v, hsome, hme⟩ := synthStep5_path_cond h5
    rw [hpath] at hpeq
    have hk : kv.1 = "System.AssignedTo" := string_append_left_cancel hpeq
    have hfalse := isPropertyValid_assigned_me hsome hme
    rw [← hk] at hfalse
    simp [hfalse] at hkvvalid
  · have hpeq := synthStep6_path_cond h6
    rw [hpath] at hpeq
    have hk : kv.1 = "System.Tags" := string_append_left_cancel hpeq
    have hfalse := isPropertyValid_tags_key tf
    rw [← hk] at hfalse
    simp [hfalse] at hkvvalid

/-- Witness for C9 on a template exercising every special-case step. -/
theorem patch_paths_nodup_witness :
    ((createWorkItemFromTemplate
      [("System.Title", "Parent T"), ("System.AreaPath", "P\\A"),
       ("System.IterationPath", "P\\I1")]
      [("System.Description", "Sub for {System.Title}"),
       ("System.AssignedTo", "@me"), ("System.Tags-Add", "t1; t2"),
       ("System.IterationPath", "@currentiteration")]
      (some ⟨"Root", some "\\Sprint 1"⟩) "me@example.org").map
      PatchOp.path).Nodup :=
  patch_paths_nodup _ _ _ _ (by decide)

theorem synthStep1_filter_iter (cwi tf : Fields)
    (hfree : ∀ kv ∈ tf, kv.1 = "System.IterationPath" →
      isPropertyValid tf kv.1 = false) :
    (synthStep1 cwi tf).filter
      (fun op => op.path == "/fields/System.IterationPath") = [] := by
  rw [List.filter_eq_nil_iff]
  intro op hop hbeq
  obtain ⟨kv, hm, hvalid, hpath⟩ := mem_synthStep1 hop
  have heq : op.path = "/fields/System.IterationPath" := eq_of_beq hbeq
  rw [hpath] at heq
  have hk := string_append_left_cancel heq
  simp [hfree kv hm hk] at hvalid

theorem synthStep2_filter_iter (cwi tf : Fields) :
    (synthStep2 cwi tf).filter
      (fun op => op.path == "/fields/System.IterationPath") = [] := by
  unfold synthStep2
  split <;> simp

theorem synthStep3_filter_iter (cwi tf : Fields) :
    (synthStep3 cwi tf).filter
      (fun op => op.path == "/fields/System.IterationPath") = [] := by
  unfold synthStep3
  split <;> simp

theorem synthStep5_filter_iter (tf : Fields) (user : String) :
    (synthStep5 tf user).filter
      (fun op => op.path == "/fields/System.IterationPath") = [] := by
  unfold synthStep5
  split
  · simp
  · split <;> simp

theorem synthStep6_filter_iter (tf : Fields) :
    (synthStep6 tf).filter
      (fun op => op.path == "/fields/System.IterationPath") = [] := by
  unfold synthStep6
  split <;> simp

/-- C8: resolution of the `System.IterationPath` operation: with no
template value the parent's iteration path is copied; with the
`@currentiteration` token the value is the separator-free concatenation
`backlogIteration.name ++ defaultIteration.path` when a default
iteration path is present, and the parent's iteration path otherwise.
The filtered list being a singleton also shows the operation is emitted
exactly once. -/
theorem iteration_path_resolution (cwi tf : Fields)
    (ts : Option TeamSettings) (user : String)
    (hnd : (tf.map Prod.fst).Nodup) :
    (lookupF tf "System.IterationPath" = none →
      (createWorkItemFromTemplate cwi tf ts user).filter
        (fun op => op.path == "/fields/System.IterationPath") =
      [⟨"add", "/fields/System.IterationPath",
        lookupF cwi "System.IterationPath"⟩]) ∧
    (∀ v bn p, lookupF tf "System.IterationPath" = some v →
      lowerStr v = "@currentiteration" →
      ts = some ⟨bn, some p⟩ → p ≠ "" →
      (createWorkItemFromTemplate cwi tf ts user).filter
        (fun op => op.path == "/fields/System.IterationPath") =
      [⟨"add", "/fields/System.IterationPath", some (bn ++ p)⟩]) ∧
    (∀ v, lookupF tf "System.IterationPath" = some v →
      lowerStr v = "@currentiteration" →
      hasDefaultIteration ts = false →
      (createWorkItemFromTemplate cwi tf ts user).filter
        (fun op => op.path == "/fields/System.IterationPath") =
      [⟨"add", "/fields/System.IterationPath",
        lookupF cwi "System.IterationPath"⟩]) := by
  refine ⟨?_, ?_, ?_⟩
  · intro hnone
    unfold createWorkItemFromTemplate
    simp only [List.filter_append]
    rw [synthStep1_filter_iter cwi tf
        (fun kv hm hk => absurd hk (lookupF_none_not_mem hnone kv hm)),
      synthStep2_filter_iter, synthStep3_filter_iter,
      synthStep5_filter_iter, synthStep6_filter_iter]
    unfold synthStep4
    rw [hnone]
    simp
  · intro v bn p hl hcur hts hpne
    unfold createWorkItemFromTemplate
    simp only [List.filter_append]
    have hfree : ∀ kv ∈ tf, kv.1 = "System.IterationPath" →
        isPropertyValid tf kv.1 = false := by
      intro kv hm hk
      have hlk := lookupF_eq_some_of_mem hnd hm
      rw [hk] at hlk
      rw [hl] at hlk
      rw [hk]
      exact isPropertyValid_iteration_cur hl hcur
    rw [synthStep1_filter_iter cwi tf hfree,
      synthStep2_filter_iter, synthStep3_filter_iter,
      synthStep5_filter_iter, synthStep6_filter_iter]
    unfold synthStep4
    rw [hl]
    dsimp only
    rw [if_pos hcur, hts]
    have hhas : hasDefaultIteration (some ⟨bn, some p⟩) = true := by
      unfold hasDefaultIteration
      simpa using hpne
    rw [hhas]
    simp
  · intro v hl hcur hfalse
    unfold createWorkItemFromTemplate
    simp only [List.filter_append]
    have hfree : ∀ kv ∈ tf, kv.1 = "System.IterationPath" →
        isPropertyValid tf kv.1 = false := by
      intro kv hm hk
      rw [hk]
      exact isPropertyValid_iteration_cur hl hcur
    rw [synthStep1_filter_iter cwi tf hfree,
      synthStep2_filter_iter, synthStep3_filter_iter,
      synthStep5_filter_iter, synthStep6_filter_iter]
    unfold synthStep4
    rw [hl]
    dsimp only
    rw [if_pos hcur, hfalse]
    simp

/-- Witness for C8: `@currentiteration` with a default iteration
present, and the fallback with team settings lacking one. -/
theorem iteration_path_resolution_witness :
    (createWorkItemFromTemplate [("System.IterationPath", "P\\I1")]
      [("System.IterationPath", "@currentiteration")]
      (some ⟨"Root", some "\\Sprint 1"⟩) "me@example.org").filter
      (fun op => op.path == "/fields/System.IterationPath") =
    [⟨"add", "/fields/System.IterationPath", some ("Root" ++ "\\Sprint 1")⟩] :=
  (iteration_path_resolution [("System.IterationPath", "P\\I1")]
    [("System.IterationPath", "@currentiteration")]
    (some ⟨"Root", some "\\Sprint 1"⟩) "me@example.org" (by decide)).2.1
    "@currentiteration" "Root" "\\Sprint 1" (by decide) (by decide) rfl
    (by decide)

end CCT
